import Mathlib

/-!
Verification development for the gossm interactive process proxy and
multi-target command dispatcher.

The definitions below are a shallow embedding of the Go sources:
* `internal/escape_simple.go` — the escape scanner
  (`copyWithEscapeDetection`), the interactive process proxy
  (`CallProcessWithSimpleEscape`) and the graceful-termination protocol
  (`terminateGracefully`, `isWaitError`);
* `internal/ssm.go` — the command dispatcher (`SendCommand`,
  `PrintCommandInvocation`) and the per-target invocation watcher
  (`monitorCommandInvocation`), plus the direct, non-interactive
  process runner (`CallProcessDirect`);
* `internal/error.go` — `WrapError`.

Bytes are modelled as `Nat`, Go errors observed through `err.Error()`
as `Option String` (`none` = nil), and wrapped errors (for
`CallProcessDirect`) as an explicit chain, so that the wrapping step of
`WrapError` stays visible.
-/

namespace Gossm

/-! ### Escape scanner (`copyWithEscapeDetection`, escape_simple.go:124-182) -/

/-- Carriage-return byte. -/
def crByte : Nat := 13

/-- Line-feed byte. -/
def lfByte : Nat := 10

/-- The `~` byte. -/
def tildeByte : Nat := 126

/-- The `.` byte. -/
def dotByte : Nat := 46

/-- The scanner's line-boundary test: the Go loop sets
`lastWasNewline` exactly for a carriage return or a line feed. -/
def isNewlineByte (b : Nat) : Bool := b == crByte || b == lfByte

/-- The scanner's mutable state in the Go byte loop:
`lastWasNewline` starts `true`, `tildeSeen` starts `false`. -/
structure ScanState where
  lastWasNewline : Bool
  tildeSeen : Bool
deriving DecidableEq, Repr

/-- The initial state of `copyWithEscapeDetection`. -/
def initScanState : ScanState := ⟨true, false⟩

/-- What one iteration of the byte loop does: either it continues with
a new state after forwarding `out` to the child, or the escape sequence
completed and the loop returns. -/
inductive StepResult where
  | cont (s : ScanState) (out : List Nat)
  | escape
deriving DecidableEq, Repr

/-- One iteration of the byte loop of `copyWithEscapeDetection` on byte
`b`: arm on `~` at a line start (forwarding nothing), resolve an armed
tilde (escape on `.`, otherwise forward `~` and the byte), and forward
every other byte as-is. -/
def scanStep (s : ScanState) (b : Nat) : StepResult :=
  if s.lastWasNewline && b == tildeByte then
    .cont ⟨false, true⟩ []
  else if s.tildeSeen then
    if b == dotByte then
      .escape
    else
      .cont ⟨isNewlineByte b, false⟩ [tildeByte, b]
  else
    .cont ⟨isNewlineByte b, false⟩ [b]

/-- Result of running the scanner over a whole input stream: either the
stream ended (EOF) with the forwarded bytes and the final state, or the
escape sequence fired after forwarding `out`. -/
inductive RunResult where
  | done (out : List Nat) (final : ScanState)
  | escaped (out : List Nat)
deriving DecidableEq, Repr

/-- `copyWithEscapeDetection` as a pure function of the byte stream:
folds `scanStep` over the input, stopping at the escape sequence. -/
def copyWithEscapeDetection : ScanState → List Nat → RunResult
  | s, [] => .done [] s
  | s, b :: rest =>
    match scanStep s b with
    | .escape => .escaped []
    | .cont s2 out =>
      match copyWithEscapeDetection s2 rest with
      | .done o fin => .done (out ++ o) fin
      | .escaped o => .escaped (out ++ o)

theorem copyWithEscapeDetection_nil (s : ScanState) :
    copyWithEscapeDetection s [] = .done [] s := rfl

theorem copyWithEscapeDetection_cons (s : ScanState) (b : Nat) (rest : List Nat) :
    copyWithEscapeDetection s (b :: rest) =
      match scanStep s b with
      | .escape => .escaped []
      | .cont s2 out =>
        match copyWithEscapeDetection s2 rest with
        | .done o fin => .done (out ++ o) fin
        | .escaped o => .escaped (out ++ o) := rfl

/-- Spec-side predicate: position `k` of the stream holds a `~`
immediately followed by a `.`, with the `~` at a line boundary (stream
start or right after a CR/LF byte). -/
def escapeAt (bs : List Nat) (k : Nat) : Prop :=
  bs.get? k = some tildeByte ∧ bs.get? (k + 1) = some dotByte ∧
    (k = 0 ∨ ∃ p c, k = p + 1 ∧ bs.get? p = some c ∧ isNewlineByte c = true)

/-- Spec-side test: does the stream contain a `~` at a line start, where
`nl` says whether the stream begins at a line boundary? -/
def tildeAtLineStart (nl : Bool) : List Nat → Bool
  | [] => false
  | b :: rest => (nl && b == tildeByte) || tildeAtLineStart (isNewlineByte b) rest

/-- The state invariant of the byte loop: the armed flag and the
line-start flag are never both set. -/
def scanInv (s : ScanState) : Prop :=
  ¬ (s.tildeSeen = true ∧ s.lastWasNewline = true)

/-! ### Process proxy exit paths (`CallProcessWithSimpleEscape`,
escape_simple.go:85-121) and graceful termination
(`terminateGracefully`, escape_simple.go:185-222).

The proxy's select over {process exit, escape, signal, stdin-copy
error} is modelled per winning event; each exit path yields the ordered
list of observable actions the Go code performs on that path (child
signals/waits, terminal writes, terminal-mode restores) and the error
value the function returns.  The deferred `term.Restore` of line 51
appears as the last action of every path, since Go runs deferred calls
right before the function returns. -/

/-- An observable action of the proxy on an exit path, in program
order.  `writeTerm` is a write to the user's terminal (stderr),
`restoreTerm` a `term.Restore` of the remembered prior mode. -/
inductive TermAction where
  | cancelForward
  | closeStdin
  | writeTerm (s : String)
  | restoreTerm
  | sigtermChild
  | killChild
  | signalChild (sig : Nat)
  | waitChild
deriving DecidableEq, Repr

/-- `isWaitError` (escape_simple.go:225-232) on the observed
`err.Error()` string; a nil error (`none`) is not a wait error. -/
def isWaitError : Option String → Bool
  | none => false
  | some s => s == "wait: no child processes" || s == "waitid: no child processes"

/-- The grace period of `terminateGracefully`, in seconds
(`3 * time.Second`, escape_simple.go:211). -/
def gracePeriodSeconds : Nat := 3

/-- Environment of one run of `terminateGracefully`: what the child and
the OS do.  `exitTime` is when the child process exits after the
SIGTERM, in seconds (`none` = it never exits on its own); `waitErr` the
`err.Error()` of `Process.Wait` when it exits; `sigtermFails` /
`killFails` whether the respective `Process.Signal` / `Process.Kill`
call returns an error (process already gone). -/
structure GraceEnv where
  sigtermFails : Bool
  exitTime : Option Nat
  waitErr : Option String
  killFails : Bool
deriving DecidableEq, Repr

/-- Whether the child's exit wins the select against
`time.After(3 * time.Second)`. -/
def exitsWithinGrace (env : GraceEnv) : Bool :=
  match env.exitTime with
  | none => false
  | some t => decide (t < gracePeriodSeconds)

/-- The Go condition under which the wait error of a graceful exit is
returned to the caller (escape_simple.go:202-205): non-nil and none of
the benign termination strings. -/
def fatalWaitErr (e : Option String) : Bool :=
  match e with
  | none => false
  | some s =>
    !(s == "signal: terminated") && !(s == "signal: broken pipe") && !(isWaitError (some s))

/-- `terminateGracefully` (escape_simple.go:185-222): SIGTERM first (an
error there means the process is already gone: success); then wait up
to the grace period; on natural exit either surface a fatal wait error
or announce graceful termination; on timeout announce, force-kill (a
kill error again means the process is gone: success) and wait for the
exit. -/
def terminateGracefully (env : GraceEnv) : List TermAction × Option String :=
  if env.sigtermFails then
    ([.sigtermChild], none)
  else if exitsWithinGrace env then
    if fatalWaitErr env.waitErr then
      ([.sigtermChild, .waitChild], env.waitErr)
    else
      ([.sigtermChild, .waitChild, .writeTerm "Session terminated gracefully"], none)
  else if env.killFails then
    ([.sigtermChild, .writeTerm "Graceful termination timed out, forcing exit...", .killChild],
      none)
  else
    ([.sigtermChild, .writeTerm "Graceful termination timed out, forcing exit...", .killChild,
      .waitChild], none)

/-- Which of the four select cases of escape_simple.go:85-120 wins the
race, with the data that case observes: the child's exit error for
process exit, the termination environment after an escape, the signal
number and the (discarded) child exit error for a delivered signal, and
the stdin-copy error for a forwarding-loop failure. -/
inductive ExitEvent where
  | processDone (err : Option String)
  | escapeDetected (env : GraceEnv)
  | signalReceived (sig : Nat) (childErr : Option String)
  | stdinErr (e : String)
deriving DecidableEq, Repr

/-- Is the event a normal process exit? -/
def ExitEvent.isProcessDone : ExitEvent → Bool
  | .processDone _ => true
  | _ => false

/-- The interactive proxy `CallProcessWithSimpleEscape` from the moment
one exit event wins the select (escape_simple.go:85-120): the ordered
observable actions of that exit path and the returned error.  Every
path ends with the deferred restore of line 51-53. -/
def CallProcessWithSimpleEscape : ExitEvent → List TermAction × Option String
  | .processDone err =>
    ([.cancelForward, .writeTerm "\r\n", .restoreTerm], err)
  | .escapeDetected env =>
    let g := terminateGracefully env
    ([.cancelForward, .closeStdin, .restoreTerm,
      .writeTerm "\r\nEscape sequence detected. Terminating session...\r\n"] ++ g.1 ++
      [.restoreTerm], g.2)
  | .signalReceived sig _ =>
    ([.cancelForward, .closeStdin, .signalChild sig, .waitChild, .restoreTerm], none)
  | .stdinErr e =>
    ([.cancelForward, .waitChild, .restoreTerm], some e)

/-- True when no terminal write precedes the first terminal-mode
restore of the action list. -/
def restoreBeforeWrites : List TermAction → Bool
  | [] => true
  | .restoreTerm :: _ => true
  | .writeTerm _ :: _ => false
  | _ :: rest => restoreBeforeWrites rest

/-! ### Direct, non-interactive execution (`CallProcessDirect`,
ssm.go:645-676) and `WrapError` (error.go:23-39). -/

/-- How a standard stream of the spawned child is bound. -/
inductive StdBinding where
  | inherit
  | pipe
deriving DecidableEq, Repr

/-- A Go error as a value: either a base error (observed through its
`Error()` string) or a `wraperror` chain adding caller information. -/
inductive GoError where
  | base (msg : String)
  | wrapChain (inner : GoError) (callerInfo : String)
deriving DecidableEq, Repr

/-- `WrapError` (error.go:23-39): nil stays nil, every other error gets
wrapped in a chain link carrying the caller's function name and line. -/
def WrapError (callerInfo : String) : Option GoError → Option GoError
  | none => none
  | some e => some (.wrapChain e callerInfo)

/-- Observable shape of one `CallProcessDirect` run: how the three
standard streams were bound, whether raw mode or escape scanning was
used, and the returned error. -/
structure DirectRun where
  stdinBinding : StdBinding
  stdoutBinding : StdBinding
  stderrBinding : StdBinding
  rawMode : Bool
  escapeDetection : Bool
  result : Option GoError
deriving DecidableEq, Repr

/-- `CallProcessDirect` (ssm.go:645-676) given the error `cmd.Run`
produces: the three standard streams are bound 1:1 to the caller's, no
raw mode and no escape scanning, and a non-nil run error is returned
through `WrapError`. -/
def CallProcessDirect (runErr : Option GoError) : DirectRun :=
  { stdinBinding := .inherit
    stdoutBinding := .inherit
    stderrBinding := .inherit
    rawMode := false
    escapeDetection := false
    result := WrapError "internal.CallProcessDirect:672" runErr }

/-- The terminal check at the top of `CallProcessWithSimpleEscape`
(escape_simple.go:21-24): when stdin is not a terminal the function
returns `CallProcessDirect` and never reaches the interactive code. -/
def callProcessFallback (stdinIsTerminal : Bool) (runErr : Option GoError) :
    Option DirectRun :=
  if stdinIsTerminal then none else some (CallProcessDirect runErr)

/-! ### Command dispatcher and invocation watcher (ssm.go:527-606). -/

/-- The poll interval of `monitorCommandInvocation`, in seconds
(`pollInterval = 1 * time.Second`, ssm.go:37). -/
def pollIntervalSeconds : Nat := 1

/-- The SSM command timeout, in seconds (`commandTimeout = 60`,
ssm.go:34). -/
def commandTimeoutSeconds : Nat := 60

/-- The SSM document used for shell commands
(`shellDocumentName`, ssm.go:31). -/
def shellDocumentName : String := "AWS-RunShellScript"

/-- A target EC2 instance (ssm.go:53-57). -/
structure Target where
  Name : String
  PublicDomain : String
  PrivateDomain : String
deriving DecidableEq, Repr

/-- The instance-id extraction loop of `SendCommand` (ssm.go:532-535):
append each target's `Name` in order. -/
def extractInstanceIds : List Target → List String
  | [] => []
  | t :: ts => t.Name :: extractInstanceIds ts

/-- The fields of the `ssm.SendCommandInput` that `SendCommand` builds
(ssm.go:538-548). -/
structure SendCommandInput where
  DocumentName : String
  InstanceIds : List String
  TimeoutSeconds : Nat
  CloudWatchOutputEnabled : Bool
  Parameters : List (String × List String)
deriving DecidableEq, Repr

/-- The single `ssm.SendCommandInput` of `SendCommand`
(ssm.go:538-548). -/
def mkSendCommandInput (targets : List Target) (command : String) : SendCommandInput :=
  { DocumentName := shellDocumentName
    InstanceIds := extractInstanceIds targets
    TimeoutSeconds := commandTimeoutSeconds
    CloudWatchOutputEnabled := true
    Parameters := [("commands", [command])] }

/-- The remote "send command" calls `SendCommand` (ssm.go:528-551)
issues: exactly the one `client.SendCommand(ctx, input)` of line 550. -/
def SendCommandCalls (targets : List Target) (command : String) : List SendCommandInput :=
  [mkSendCommandInput targets command]

/-- One response of `client.GetCommandInvocation` as the watcher reads
it (ssm.go:579-601): the status string and the captured streams. -/
structure InvResp where
  Status : String
  InstanceId : String
  StandardOutputContent : String
  StandardErrorContent : String
deriving DecidableEq, Repr

/-- How one status string steers the watcher's switch (ssm.go:586-603). -/
inductive PollClass where
  | running
  | terminalSuccess
  | terminalFail
deriving DecidableEq, Repr

/-- `strings.ToLower` as the watcher applies it to the status string
(ssm.go:586): character-wise lowercasing. -/
def goToLower (s : String) : String := ⟨s.data.map Char.toLower⟩

/-- The status classification of `monitorCommandInvocation`
(ssm.go:586-603): lowercase the status; "pending", "inprogress",
"delayed" keep polling; "success" is the successful terminal state;
everything else is a failed terminal state. -/
def classifyStatus (st : String) : PollClass :=
  let s := goToLower st
  if s == "pending" || s == "inprogress" || s == "delayed" then .running
  else if s == "success" then .terminalSuccess
  else .terminalFail

/-- The terminal line a watcher prints for its target
(ssm.go:592-601). -/
inductive WatchResult where
  | succeeded (instanceId : String) (stdoutText : String)
  | failed (instanceId : String) (stderrText : String)
deriving DecidableEq, Repr

/-- `monitorCommandInvocation` (ssm.go:568-606) as a function of the
successive status responses its polls would observe: keep consuming
responses while the status is non-terminal, emit the single terminal
result at the first terminal status (`none` when the given responses
never turn terminal, i.e. the loop is still polling). -/
def monitorCommandInvocation : List InvResp → Option WatchResult
  | [] => none
  | r :: rest =>
    match classifyStatus r.Status with
    | .running => monitorCommandInvocation rest
    | .terminalSuccess => some (.succeeded r.InstanceId r.StandardOutputContent)
    | .terminalFail => some (.failed r.InstanceId r.StandardErrorContent)

/-- The terminal lines one watcher emits on a given response schedule:
at most the one result `monitorCommandInvocation` returns. -/
def watcherEmits (rs : List InvResp) : List WatchResult :=
  match monitorCommandInvocation rs with
  | none => []
  | some r => [r]

/-- `PrintCommandInvocation` (ssm.go:554-565) as a function of one
response schedule per spawned watcher: it returns control (`some`,
carrying every watcher's terminal line) exactly when each of the
watchers it created reaches its terminal state, mirroring
`wg.Wait()`. -/
def PrintCommandInvocation : List (List InvResp) → Option (List WatchResult)
  | [] => some []
  | rs :: rest =>
    match monitorCommandInvocation rs, PrintCommandInvocation rest with
    | some r, some others => some (r :: others)
    | _, _ => none

/-! ### Scanner lemmas -/

/-- Unfolding of the scanner fold when the step continues. -/
theorem copy_cons_cont (s : ScanState) (b : Nat) (s2 : ScanState) (out rest : List Nat)
    (h : scanStep s b = .cont s2 out) :
    copyWithEscapeDetection s (b :: rest) =
      match copyWithEscapeDetection s2 rest with
      | .done o fin => .done (out ++ o) fin
      | .escaped o => .escaped (out ++ o) := by
  rw [copyWithEscapeDetection_cons, h]

/-- A stream with no tilde at a line start is forwarded verbatim,
generalized over the incoming line-start flag (armed flag off). -/
theorem copy_no_tilde_aux :
    ∀ (bs : List Nat) (nl : Bool), tildeAtLineStart nl bs = false →
      ∃ fin, copyWithEscapeDetection ⟨nl, false⟩ bs = .done bs fin := by
  intro bs
  induction bs with
  | nil => exact fun nl _ => ⟨⟨nl, false⟩, rfl⟩
  | cons b rest ih =>
    intro nl h
    simp only [tildeAtLineStart, Bool.or_eq_false_iff] at h
    obtain ⟨h1, h2⟩ := h
    obtain ⟨fin, hfin⟩ := ih (isNewlineByte b) h2
    have hstep : scanStep ⟨nl, false⟩ b = .cont ⟨isNewlineByte b, false⟩ [b] := by
      simp [scanStep, h1]
    refine ⟨fin, ?_⟩
    rw [copy_cons_cont _ _ _ _ _ hstep, hfin]
    rfl

/-- Escapes only fire after a `~` at a line boundary followed by `.`,
generalized over the incoming line-start flag (armed flag off); the
boundary is either the start of the remaining stream with the
line-start flag set, or a CR/LF byte right before the `~`. -/
theorem copy_escape_boundary :
    ∀ (n : Nat) (bs : List Nat), bs.length ≤ n → ∀ (nl : Bool) (out : List Nat),
      copyWithEscapeDetection ⟨nl, false⟩ bs = .escaped out →
      ∃ k, bs.get? k = some tildeByte ∧ bs.get? (k + 1) = some dotByte ∧
        ((k = 0 ∧ nl = true) ∨
          ∃ p c, k = p + 1 ∧ bs.get? p = some c ∧ isNewlineByte c = true) := by
  intro n
  induction n with
  | zero =>
    intro bs hlen nl out h
    have hbs : bs = [] := List.length_eq_zero.mp (Nat.le_zero.mp hlen)
    subst hbs
    exact absurd h (by simp [copyWithEscapeDetection_nil])
  | succ n ih =>
    intro bs hlen nl out h
    cases bs with
    | nil => exact absurd h (by simp [copyWithEscapeDetection_nil])
    | cons b rest =>
      by_cases h1 : (nl && b == tildeByte) = true
      · -- the byte arms the scanner
        rw [Bool.and_eq_true, beq_iff_eq] at h1
        obtain ⟨hnl, hb⟩ := h1
        have hstep : scanStep ⟨nl, false⟩ b = .cont ⟨false, true⟩ [] := by
          simp [scanStep, hnl, hb]
        rw [copy_cons_cont _ _ _ _ _ hstep] at h
        cases rest with
        | nil =>
          rw [copyWithEscapeDetection_nil] at h
          simp at h
        | cons c rest2 =>
          by_cases h2 : (c == dotByte) = true
          · rw [beq_iff_eq] at h2
            exact ⟨0, by simp [hb], by simp [h2], Or.inl ⟨rfl, hnl⟩⟩
          · have hstep2 : scanStep ⟨false, true⟩ c =
                .cont ⟨isNewlineByte c, false⟩ [tildeByte, c] := by
              simp [scanStep, h2]
            rw [copy_cons_cont _ _ _ _ _ hstep2] at h
            cases hrec : copyWithEscapeDetection ⟨isNewlineByte c, false⟩ rest2 with
            | done o fin => rw [hrec] at h; simp at h
            | escaped o =>
              have hlen2 : rest2.length ≤ n := by
                simp only [List.length_cons] at hlen; omega
              obtain ⟨k, hk1, hk2, hk3⟩ := ih rest2 hlen2 (isNewlineByte c) o hrec
              refine ⟨k + 2, by simpa using hk1, by simpa using hk2, ?_⟩
              rcases hk3 with ⟨hk0, hnlc⟩ | ⟨p, c2, hp, hpc, hnlc⟩
              · subst hk0
                exact Or.inr ⟨1, c, rfl, by simp, hnlc⟩
              · subst hp
                exact Or.inr ⟨p + 2, c2, rfl, by simpa using hpc, hnlc⟩
      · -- ordinary byte, forwarded as-is
        have hstep : scanStep ⟨nl, false⟩ b = .cont ⟨isNewlineByte b, false⟩ [b] := by
          simp [scanStep, h1]
        rw [copy_cons_cont _ _ _ _ _ hstep] at h
        cases hrec : copyWithEscapeDetection ⟨isNewlineByte b, false⟩ rest with
        | done o fin => rw [hrec] at h; simp at h
        | escaped o =>
          have hlen2 : rest.length ≤ n := by
            simp only [List.length_cons] at hlen; omega
          obtain ⟨k, hk1, hk2, hk3⟩ := ih rest hlen2 (isNewlineByte b) o hrec
          refine ⟨k + 1, by simpa using hk1, by simpa using hk2, ?_⟩
          rcases hk3 with ⟨hk0, hnlb⟩ | ⟨p, c2, hp, hpc, hnlc⟩
          · subst hk0
            exact Or.inr ⟨0, b, rfl, by simp, hnlb⟩
          · subst hp
            exact Or.inr ⟨p + 1, c2, rfl, by simpa using hpc, hnlc⟩

/-! ### Claim theorems for the escape scanner -/

/-- C3: for all byte sequences that contain no `~` occurring at a line
start, the Escape Scanner forwards every byte unchanged (in order, none
suppressed) and never triggers escape. -/
theorem c3_no_tilde_forwards_verbatim (bs : List Nat)
    (h : tildeAtLineStart true bs = false) :
    (∃ fin, copyWithEscapeDetection initScanState bs = .done bs fin) ∧
      ∀ out, copyWithEscapeDetection initScanState bs ≠ .escaped out := by
  obtain ⟨fin, hfin⟩ := copy_no_tilde_aux bs true h
  have hfin2 : copyWithEscapeDetection initScanState bs = .done bs fin := hfin
  exact ⟨⟨fin, hfin2⟩, fun out hc => by rw [hfin2] at hc; exact RunResult.noConfusion hc⟩

/-- Witness for C3 on the concrete stream "a~b\nc" (its `~` is not at a
line start). -/
theorem c3_no_tilde_forwards_verbatim_witness :
    (∃ fin, copyWithEscapeDetection initScanState [97, 126, 98, 10, 99] =
      .done [97, 126, 98, 10, 99] fin) ∧
      ∀ out, copyWithEscapeDetection initScanState [97, 126, 98, 10, 99] ≠ .escaped out :=
  c3_no_tilde_forwards_verbatim [97, 126, 98, 10, 99] (by decide)

/-- C10: the tilde-armed flag and the at-line-start flag are never both
true: the initial state satisfies this, every `cont` step preserves it,
arming on `~` clears the line-start flag, a disarming step (from an
armed reachable state) clears the armed flag and sets the line-start
flag exactly for a CR/LF byte, and `~~` at a line start forwards both
tildes without re-arming. -/
theorem c10_armed_excludes_line_start :
    scanInv initScanState ∧
    (∀ s b s2 out, scanInv s → scanStep s b = .cont s2 out → scanInv s2) ∧
    (∀ s b, s.lastWasNewline = true → b = tildeByte →
      scanStep s b = .cont ⟨false, true⟩ []) ∧
    (∀ s b s2 out, scanInv s → s.tildeSeen = true → scanStep s b = .cont s2 out →
      s2.tildeSeen = false ∧ (s2.lastWasNewline = true ↔ isNewlineByte b = true)) ∧
    copyWithEscapeDetection initScanState [tildeByte, tildeByte] =
      .done [tildeByte, tildeByte] ⟨false, false⟩ := by
  refine ⟨by simp [scanInv, initScanState], ?_, ?_, ?_, by decide⟩
  · intro s b s2 out _ hstep
    obtain ⟨nl, ts⟩ := s
    simp only [scanStep] at hstep
    split at hstep
    · cases hstep; simp [scanInv]
    · split at hstep
      · split at hstep
        · exact StepResult.noConfusion hstep
        · cases hstep; simp [scanInv]
      · cases hstep; simp [scanInv]
  · intro s b h1 h2
    obtain ⟨nl, ts⟩ := s
    simp only at h1
    subst h1 h2
    simp [scanStep]
  · intro s b s2 out hinv hts hstep
    obtain ⟨nl, ts⟩ := s
    simp only at hts
    subst hts
    have hnl : nl = false := by
      rcases Bool.eq_false_or_eq_true nl with h | h
      · exact absurd ⟨rfl, h⟩ hinv
      · exact h
    subst hnl
    simp only [scanStep, Bool.false_and, Bool.false_eq_true, if_false, if_true] at hstep
    split at hstep
    · exact StepResult.noConfusion hstep
    · cases hstep; simp

/-- Witness for C10's conditional parts at the concrete armed state and
byte `x`. -/
theorem c10_armed_excludes_line_start_witness :
    scanInv (⟨isNewlineByte 120, false⟩ : ScanState) ∧
    scanStep ⟨true, false⟩ tildeByte = .cont ⟨false, true⟩ [] ∧
    ((⟨isNewlineByte 120, false⟩ : ScanState).tildeSeen = false ∧
      ((⟨isNewlineByte 120, false⟩ : ScanState).lastWasNewline = true ↔
        isNewlineByte 120 = true)) :=
  ⟨c10_armed_excludes_line_start.2.1 ⟨false, true⟩ 120 ⟨isNewlineByte 120, false⟩
      [tildeByte, 120] (by simp [scanInv]) (by decide),
    c10_armed_excludes_line_start.2.2.1 ⟨true, false⟩ tildeByte rfl rfl,
    c10_armed_excludes_line_start.2.2.2.1 ⟨false, true⟩ 120 ⟨isNewlineByte 120, false⟩
      [tildeByte, 120] (by simp [scanInv]) rfl (by decide)⟩

/-- C2 counterexample: on the exact stream "newline, `~`, `.`" the
scanner does trigger escape but forwards the newline byte, so it does
not forward "no byte of that sequence". -/
theorem c2_counterexample_newline_forwarded :
    copyWithEscapeDetection initScanState [lfByte, tildeByte, dotByte] =
      .escaped [lfByte] ∧
    RunResult.escaped [lfByte] ≠ RunResult.escaped ([] : List Nat) := by
  constructor
  · decide
  · decide

/-- C2 (amended): escape fires only on `~` then `.` with the `~` at a
line boundary (stream start or right after CR/LF); an armed `~`
followed by a byte other than `.` forwards the literal `~` and that
byte and disarms; on "newline, `~`, `.`" the scanner triggers escape,
forwards the newline byte, and forwards neither the `~` nor the `.`. -/
theorem c2_escape_only_at_line_boundary :
    (∀ bs out, copyWithEscapeDetection initScanState bs = .escaped out →
      ∃ k, escapeAt bs k) ∧
    (∀ b, b ≠ dotByte →
      scanStep ⟨false, true⟩ b = .cont ⟨isNewlineByte b, false⟩ [tildeByte, b]) ∧
    copyWithEscapeDetection initScanState [lfByte, tildeByte, dotByte] =
      .escaped [lfByte] := by
  refine ⟨?_, ?_, by decide⟩
  · intro bs out h
    obtain ⟨k, hk1, hk2, hk3⟩ :=
      copy_escape_boundary bs.length bs (Nat.le_refl _) true out h
    refine ⟨k, hk1, hk2, ?_⟩
    rcases hk3 with ⟨hk0, _⟩ | ⟨p, c, hp, hpc, hnlc⟩
    · exact Or.inl hk0
    · exact Or.inr ⟨p, c, hp, hpc, hnlc⟩
  · intro b hb
    have hb2 : (b == dotByte) = false := by
      simp [hb]
    simp [scanStep, hb2]

/-- Witness for C2 at the stream "`~.`" (stream start is a line
boundary) and the armed state followed by `x`. -/
theorem c2_escape_only_at_line_boundary_witness :
    (∃ k, escapeAt [tildeByte, dotByte] k) ∧
    scanStep ⟨false, true⟩ 120 = .cont ⟨isNewlineByte 120, false⟩ [tildeByte, 120] :=
  ⟨c2_escape_only_at_line_boundary.1 [tildeByte, dotByte] [] (by decide),
    c2_escape_only_at_line_boundary.2.1 120 (by decide)⟩

/-! ### Claim theorems for the process proxy -/

/-- C1 counterexample: on the process-exit path the proxy writes the
alignment line break to the terminal before the deferred restore runs,
so restoration does not happen-before every further terminal write on
that exit path. -/
theorem c1_counterexample_write_before_restore :
    restoreBeforeWrites
      (CallProcessWithSimpleEscape (.processDone (some "exit status 7"))).1 = false := by
  decide

/-- C1 (amended): on every exit path of the interactive proxy the
terminal's prior mode is restored before the proxy returns (the restore
is the last action of the path); on the escape, signal and
forwarding-loop-error paths the restoration also happens-before any
further terminal write, while on the process-exit path the alignment
line break is written before the restore. -/
theorem c1_restore_on_every_exit_path :
    (∀ ev, (CallProcessWithSimpleEscape ev).1.getLast? = some .restoreTerm) ∧
    (∀ ev, ev.isProcessDone = false →
      restoreBeforeWrites (CallProcessWithSimpleEscape ev).1 = true) := by
  constructor
  · intro ev
    cases ev with
    | processDone err => rfl
    | escapeDetected env =>
      show (_ ++ (terminateGracefully env).1 ++ [TermAction.restoreTerm]).getLast? = _
      rw [List.getLast?_concat]
    | signalReceived sig childErr => rfl
    | stdinErr e => rfl
  · intro ev hev
    cases ev with
    | processDone err => simp [ExitEvent.isProcessDone] at hev
    | escapeDetected env => rfl
    | signalReceived sig childErr => rfl
    | stdinErr e => rfl

/-- Witness for C1 at the forwarding-loop-error exit path. -/
theorem c1_restore_on_every_exit_path_witness :
    (CallProcessWithSimpleEscape (.stdinErr "read error")).1.getLast? =
      some TermAction.restoreTerm ∧
    restoreBeforeWrites (CallProcessWithSimpleEscape (.stdinErr "read error")).1 = true :=
  ⟨c1_restore_on_every_exit_path.1 (.stdinErr "read error"),
    c1_restore_on_every_exit_path.2 (.stdinErr "read error") (by decide)⟩

/-- C4: when the child process exits first, the proxy returns the
child's exit error unmodified and the exit path restores the terminal
mode exactly once. -/
theorem c4_process_exit_error_unmodified (err : Option String) :
    (CallProcessWithSimpleEscape (.processDone err)).2 = err ∧
    ((CallProcessWithSimpleEscape (.processDone err)).1.count .restoreTerm) = 1 := by
  exact ⟨rfl, rfl⟩

/-- C5: the graceful-termination protocol sends SIGTERM first, uses a
fixed 3-second grace period, force-kills (then waits) only when the
child has not exited within the grace period, and treats a failing
SIGTERM or a failing kill (process already gone) as success. -/
theorem c5_graceful_termination_protocol :
    gracePeriodSeconds = 3 ∧
    (∀ env, (terminateGracefully env).1.head? = some .sigtermChild) ∧
    (∀ env, .killChild ∈ (terminateGracefully env).1 →
      env.sigtermFails = false ∧ exitsWithinGrace env = false) ∧
    (∀ env, env.sigtermFails = true → terminateGracefully env = ([.sigtermChild], none)) ∧
    (∀ env, env.sigtermFails = false → exitsWithinGrace env = false →
      env.killFails = true →
      terminateGracefully env =
        ([.sigtermChild, .writeTerm "Graceful termination timed out, forcing exit...",
          .killChild], none)) ∧
    (∀ env, env.sigtermFails = false → exitsWithinGrace env = false →
      env.killFails = false →
      terminateGracefully env =
        ([.sigtermChild, .writeTerm "Graceful termination timed out, forcing exit...",
          .killChild, .waitChild], none)) := by
  refine ⟨rfl, ?_, ?_, ?_, ?_, ?_⟩
  · intro env
    unfold terminateGracefully
    split
    · rfl
    · split
      · split <;> rfl
      · split <;> rfl
  · intro env hmem
    unfold terminateGracefully at hmem
    split at hmem
    · simp at hmem
    · split at hmem
      · split at hmem <;> simp at hmem
      · split at hmem <;> exact ⟨by simp_all, by simp_all⟩
  · intro env h
    unfold terminateGracefully
    rw [if_pos h]
  · intro env h1 h2 h3
    unfold terminateGracefully
    rw [if_neg (by simp [h1]), if_neg (by simp [h2]), if_pos h3]
  · intro env h1 h2 h3
    unfold terminateGracefully
    rw [if_neg (by simp [h1]), if_neg (by simp [h2]), if_neg (by simp [h3])]

/-- Witness for C5: a child that ignores SIGTERM and outlives the grace
period is force-killed and waited for, with a nil result. -/
theorem c5_graceful_termination_protocol_witness :
    terminateGracefully ⟨false, none, none, false⟩ =
      ([.sigtermChild, .writeTerm "Graceful termination timed out, forcing exit...",
        .killChild, .waitChild], none) :=
  c5_graceful_termination_protocol.2.2.2.2.2 ⟨false, none, none, false⟩ rfl rfl rfl

/-- C6: when an interrupt/termination signal wins the race, the proxy
cancels the forwarding loop, forwards that same signal to the child,
blocks until the child exits, and returns no error regardless of the
child's exit status. -/
theorem c6_signal_path_forwards_signal (sig : Nat) (childErr : Option String) :
    CallProcessWithSimpleEscape (.signalReceived sig childErr) =
      ([.cancelForward, .closeStdin, .signalChild sig, .waitChild, .restoreTerm], none) :=
  rfl

/-- C7 counterexample: the direct fallback does not forward the raw
exit error — a non-nil run error comes back wrapped by `WrapError`. -/
theorem c7_counterexample_error_wrapped :
    (CallProcessDirect (some (.base "exit status 7"))).result ≠
      some (GoError.base "exit status 7") := by
  decide

/-- C7 (amended): with no controlling terminal on standard input the
proxy falls back to `CallProcessDirect`, which binds the three standard
streams 1:1, uses no raw mode and no escape detection, returns nil for
a nil run error, and returns a non-nil run error wrapped with caller
debug information (the raw error preserved inside the wrapper). -/
theorem c7_non_terminal_falls_back_direct :
    (∀ runErr, callProcessFallback false runErr = some (CallProcessDirect runErr)) ∧
    (∀ runErr, (CallProcessDirect runErr).stdinBinding = .inherit ∧
      (CallProcessDirect runErr).stdoutBinding = .inherit ∧
      (CallProcessDirect runErr).stderrBinding = .inherit ∧
      (CallProcessDirect runErr).rawMode = false ∧
      (CallProcessDirect runErr).escapeDetection = false) ∧
    (CallProcessDirect none).result = none ∧
    (∀ e, (CallProcessDirect (some e)).result =
      some (.wrapChain e "internal.CallProcessDirect:672")) :=
  ⟨fun _ => rfl, fun _ => ⟨rfl, rfl, rfl, rfl, rfl⟩, rfl, fun _ => rfl⟩

/-! ### Claim theorems for the dispatcher and watcher -/

/-- The instance-id extraction loop appends exactly each target's name,
in order. -/
theorem extractInstanceIds_eq_map (ts : List Target) :
    extractInstanceIds ts = ts.map Target.Name := by
  induction ts with
  | nil => rfl
  | cons t ts ih => simp [extractInstanceIds, ih]

/-- C8: the watcher keeps polling on the fixed 1-second interval
exactly as long as the (case-insensitive) status is pending, inprogress
or delayed; a terminal "success" (case-insensitive) yields the
succeeded result carrying the captured standard output; every other
terminal status yields the failed result carrying the captured standard
error; and a watcher whose responses reach a terminal status emits
exactly one terminal result. -/
theorem c8_watcher_classification_and_single_result :
    pollIntervalSeconds = 1 ∧
    (∀ st : String, classifyStatus st = .running ↔
      (goToLower st = "pending" ∨ goToLower st = "inprogress" ∨
        goToLower st = "delayed")) ∧
    (∀ st : String, goToLower st = "success" → classifyStatus st = .terminalSuccess) ∧
    (∀ st : String, goToLower st ≠ "pending" → goToLower st ≠ "inprogress" →
      goToLower st ≠ "delayed" → goToLower st ≠ "success" →
      classifyStatus st = .terminalFail) ∧
    (∀ (r : InvResp) rest, classifyStatus r.Status = .running →
      monitorCommandInvocation (r :: rest) = monitorCommandInvocation rest) ∧
    (∀ (r : InvResp) rest, classifyStatus r.Status = .terminalSuccess →
      monitorCommandInvocation (r :: rest) =
        some (.succeeded r.InstanceId r.StandardOutputContent)) ∧
    (∀ (r : InvResp) rest, classifyStatus r.Status = .terminalFail →
      monitorCommandInvocation (r :: rest) =
        some (.failed r.InstanceId r.StandardErrorContent)) ∧
    (∀ rs, (∃ r ∈ rs, classifyStatus r.Status ≠ .running) →
      (watcherEmits rs).length = 1) := by
  refine ⟨rfl, ?_, ?_, ?_, ?_, ?_, ?_, ?_⟩
  · intro st
    simp only [classifyStatus]
    split
    · simp_all
      tauto
    · split <;> simp_all
  · intro st h
    simp [classifyStatus, h]
  · intro st h1 h2 h3 h4
    simp [classifyStatus, h1, h2, h3, h4]
  · intro r rest h
    simp [monitorCommandInvocation, h]
  · intro r rest h
    simp [monitorCommandInvocation, h]
  · intro r rest h
    simp [monitorCommandInvocation, h]
  · intro rs hex
    induction rs with
    | nil => simp at hex
    | cons r rest ih =>
      cases hcl : classifyStatus r.Status with
      | running =>
        have hex2 : ∃ x ∈ rest, classifyStatus x.Status ≠ .running := by
          obtain ⟨x, hx, hne⟩ := hex
          rcases List.mem_cons.mp hx with hx | hx
          · exact absurd (hx ▸ hcl) hne
          · exact ⟨x, hx, hne⟩
        simpa [watcherEmits, monitorCommandInvocation, hcl] using ih hex2
      | terminalSuccess => simp [watcherEmits, monitorCommandInvocation, hcl]
      | terminalFail => simp [watcherEmits, monitorCommandInvocation, hcl]

/-- Witness for C8 at concrete statuses and a concrete two-response
schedule (one poll while in progress, then success). -/
theorem c8_watcher_classification_witness :
    classifyStatus "Success" = .terminalSuccess ∧
    classifyStatus "Failed" = .terminalFail ∧
    (watcherEmits [⟨"InProgress", "i-1", "out", "err"⟩,
      ⟨"Failed", "i-1", "out", "err"⟩]).length = 1 :=
  ⟨c8_watcher_classification_and_single_result.2.2.1 "Success" (by decide),
    c8_watcher_classification_and_single_result.2.2.2.1 "Failed" (by decide) (by decide)
      (by decide) (by decide),
    c8_watcher_classification_and_single_result.2.2.2.2.2.2.2
      [⟨"InProgress", "i-1", "out", "err"⟩, ⟨"Failed", "i-1", "out", "err"⟩]
      ⟨⟨"Failed", "i-1", "out", "err"⟩, by decide, by decide⟩⟩

/-- Unfolding of the dispatcher wait when the first watcher never turns
terminal. -/
theorem print_cons_none (rs : List InvResp) (rest : List (List InvResp))
    (h : monitorCommandInvocation rs = none) :
    PrintCommandInvocation (rs :: rest) = none := by
  simp only [PrintCommandInvocation, h]

/-- Unfolding of the dispatcher wait when the first watcher reaches a
terminal state but a later one does not. -/
theorem print_cons_some_none (rs : List InvResp) (rest : List (List InvResp))
    (r : WatchResult) (h1 : monitorCommandInvocation rs = some r)
    (h2 : PrintCommandInvocation rest = none) :
    PrintCommandInvocation (rs :: rest) = none := by
  simp only [PrintCommandInvocation, h1, h2]

/-- Unfolding of the dispatcher wait when the first watcher and all
later watchers reach terminal states. -/
theorem print_cons_some_some (rs : List InvResp) (rest : List (List InvResp))
    (r : WatchResult) (others : List WatchResult)
    (h1 : monitorCommandInvocation rs = some r)
    (h2 : PrintCommandInvocation rest = some others) :
    PrintCommandInvocation (rs :: rest) = some (r :: others) := by
  simp only [PrintCommandInvocation, h1, h2]

/-- C9: the dispatcher issues exactly one "send command" call and that
call carries the full target id list (one id per target, in order); and
the overall print operation returns control exactly when every spawned
watcher has reached its terminal state, yielding one terminal result
per watcher. -/
theorem c9_single_send_and_wait_for_all :
    (∀ (targets : List Target) (command : String),
      (SendCommandCalls targets command).length = 1 ∧
      ∀ inp ∈ SendCommandCalls targets command,
        inp.InstanceIds = targets.map Target.Name ∧
        inp.InstanceIds.length = targets.length ∧
        inp.DocumentName = shellDocumentName ∧
        inp.Parameters = [("commands", [command])]) ∧
    (∀ schedules, (PrintCommandInvocation schedules).isSome = true ↔
      ∀ rs ∈ schedules, (monitorCommandInvocation rs).isSome = true) ∧
    (∀ schedules results, PrintCommandInvocation schedules = some results →
      results.length = schedules.length) := by
  refine ⟨?_, ?_, ?_⟩
  · intro targets command
    refine ⟨rfl, ?_⟩
    intro inp hinp
    have : inp = mkSendCommandInput targets command := by
      simpa [SendCommandCalls] using hinp
    subst this
    refine ⟨extractInstanceIds_eq_map targets, ?_, rfl, rfl⟩
    rw [show (mkSendCommandInput targets command).InstanceIds = extractInstanceIds targets
      from rfl, extractInstanceIds_eq_map targets, List.length_map]
  · intro schedules
    induction schedules with
    | nil => simp [PrintCommandInvocation]
    | cons rs rest ih =>
      cases hm : monitorCommandInvocation rs with
      | none =>
        rw [print_cons_none rs rest hm]
        simp only [Option.isSome_none, Bool.false_eq_true, false_iff]
        intro h
        exact absurd (h rs (List.mem_cons_self _ _)) (by simp [hm])
      | some r =>
        cases hp : PrintCommandInvocation rest with
        | none =>
          rw [print_cons_some_none rs rest r hm hp]
          simp only [Option.isSome_none, Bool.false_eq_true, false_iff]
          rw [hp] at ih
          simp only [Option.isSome_none, Bool.false_eq_true, false_iff] at ih
          intro h
          exact absurd (fun x hx => h x (List.mem_cons_of_mem _ hx)) ih
        | some others =>
          rw [print_cons_some_some rs rest r others hm hp]
          simp only [Option.isSome_some, eq_self_iff_true, true_iff]
          rw [hp] at ih
          simp only [Option.isSome_some, eq_self_iff_true, true_iff] at ih
          intro x hx
          rcases List.mem_cons.mp hx with hx | hx
          · subst hx; simp [hm]
          · exact ih x hx
  · intro schedules
    induction schedules with
    | nil =>
      intro results h
      simp only [PrintCommandInvocation] at h
      cases h
      rfl
    | cons rs rest ih =>
      intro results h
      cases hm : monitorCommandInvocation rs with
      | none => rw [print_cons_none rs rest hm] at h; exact absurd h (by simp)
      | some r =>
        cases hp : PrintCommandInvocation rest with
        | none =>
          rw [print_cons_some_none rs rest r hm hp] at h
          exact absurd h (by simp)
        | some others =>
          rw [print_cons_some_some rs rest r others hm hp] at h
          cases h
          simpa using ih _ hp

/-- Witness for C9 at one target, one command and a one-watcher
schedule that reaches the terminal success state after one running
poll. -/
theorem c9_single_send_and_wait_for_all_witness :
    ((mkSendCommandInput [⟨"i-1", "pub", "priv"⟩] "uptime").InstanceIds = ["i-1"]) ∧
    ([WatchResult.succeeded "i-1" "ok"] : List WatchResult).length =
      [[(⟨"Pending", "i-1", "ok", ""⟩ : InvResp),
        (⟨"Success", "i-1", "ok", ""⟩ : InvResp)]].length :=
  ⟨((c9_single_send_and_wait_for_all.1 [⟨"i-1", "pub", "priv"⟩] "uptime").2
      (mkSendCommandInput [⟨"i-1", "pub", "priv"⟩] "uptime") (by decide)).1,
    c9_single_send_and_wait_for_all.2.2
      [[⟨"Pending", "i-1", "ok", ""⟩, ⟨"Success", "i-1", "ok", ""⟩]]
      [WatchResult.succeeded "i-1" "ok"] (by decide)⟩

end Gossm
